import Mathlib

/-!
Verification of the JNI boundary adapter `src/java/src/main/c/wrapper.c` of
the rulestone repository.

The adapter has three entry points:
  * `Java_com_atlasgurus_rulestone_Rulestone_NewRuleEngine`
  * `Java_com_atlasgurus_rulestone_Rulestone_Match`
  * `Java_com_atlasgurus_rulestone_Rulestone_GetRuleMetadata`

Each is straight-line marshalling code around a native primitive
(`NewRuleEngine`, `Match`, `GetRuleMetadata`, declared in the generated Go
header, outside this repository's C source).  We embed each entry point as a
pure Lean function that takes the native primitive's result as an explicit
argument (the native engine is an opaque collaborator) and returns, next to
the host-visible result, a trace of boundary events: JNI string
acquisitions/releases, host allocations, copies, and every `free` of a
native-owned allocation, tagged with that allocation's identity.  Lifecycle
claims (freed exactly once, freed only after the copy, nothing freed on the
absent-metadata early return) become statements about these traces.

Native-owned allocations are modelled by `Nat` identities attached to the
values the native engine hands across the boundary:
  * a `Matches` value (from `Match(rule_engine_id, input)`) carries the
    identity of the header struct (`hdrId`) and of its backing buffer
    (`bufId`), plus the C fields `len` and `matches` (the buffer contents);
  * a `Metadata` value (from `GetRuleMetadata(rule_engine_id, rule_id)`)
    carries the identity of the `Metadata` struct allocation itself
    (`structId`), the identity of the flat array block `metadata->metadata`
    (`hdrId`), the C field `size`, and the flat array `metadata` of native
    strings, each with its own identity.  Note that the C code frees the
    strings and the array block but, unlike `Match` (which frees both
    `matches->matches` and `matches`), contains no `free(metadata)`: the
    struct allocation `structId` never appears in a `free` event.

A possibly-NULL native pointer is an `Option`; the C code's unguarded
dereference in `Match` is embedded as `Option` propagation (undefined on
`none`), while `GetRuleMetadata`'s explicit NULL check makes its embedding
total.  JNI's `NewStringUTF` may fail (a host-side conversion/allocation
failure), so it is a parameter `conv : String → Option String`; the
straight-line C frees natives regardless of it, which the embedding mirrors.
-/

/-- The `Matches` struct returned by the native `Match` primitive:
C fields `len` and `matches` (buffer contents), plus the identities of the
two native-owned allocations the adapter receives (the struct itself and
the `matches` buffer). -/
structure Matches where
  hdrId : Nat
  bufId : Nat
  len : Nat
  «matches» : List Int
  deriving DecidableEq, Repr

/-- A native-owned C string: its allocation identity and its characters. -/
structure NativeString where
  id : Nat
  s : String
  deriving DecidableEq, Repr

/-- The `Metadata` struct returned by the native `GetRuleMetadata`
primitive: C field `size`, the flat array `metadata` of `2*size` native
strings (key at index `2*i`, value at index `2*i+1`), the identity of the
flat-array block allocation (`metadata->metadata`, freed at the end of the
loop), and the identity of the `Metadata` struct allocation itself
(`structId`) — a native-owned allocation the adapter receives just like
the `Matches` struct, but for which `wrapper.c` has no `free(metadata)`
call. -/
structure Metadata where
  structId : Nat
  hdrId : Nat
  size : Nat
  metadata : List NativeString
  deriving DecidableEq, Repr

/-- Boundary events emitted by the adapter, in program order.  `free id`
records a `free()` call on the native allocation with identity `id`;
`newStr id` records the `NewStringUTF` conversion of the native string with
identity `id` into a host-owned string. -/
inductive Event where
  | getStringUTFChars
  | callNative
  | newIntArray (n : Nat)
  | setIntArrayRegion (n : Nat)
  | releaseStringUTFChars
  | newMap
  | newStr (id : Nat)
  | put
  | newObj
  | free (id : Nat)
  deriving DecidableEq, Repr

/-- Does the event record a `free()` of a native allocation? -/
def Event.isFree : Event → Bool
  | .free _ => true
  | _ => false

/-- The allocation identity freed by the event, if any. -/
def Event.freeId : Event → Option Nat
  | .free i => some i
  | _ => none

/-- The identities of native allocations freed along a trace, in order. -/
def freedIds (t : List Event) : List Nat :=
  t.filterMap Event.freeId

/-- Embedding of `Java_com_atlasgurus_rulestone_Rulestone_NewRuleEngine`:
gets the UTF chars of the Java string, calls the native `NewRuleEngine`
primitive (passed in as `create`), releases the chars, and returns the
resulting handle unchanged. -/
def Java_com_atlasgurus_rulestone_Rulestone_NewRuleEngine
    (create : String → Int) (jstr : String) : Int × List Event :=
  let rules_path := jstr
  let rule_engine_id := create rules_path
  (rule_engine_id, [.getStringUTFChars, .callNative, .releaseStringUTFChars])

/-- JNI `SetIntArrayRegion` source side: read `n` elements from the native
buffer (reads past the end are modelled with the default `0`). -/
def copyRegion (buf : List Int) (n : Nat) : List Int :=
  (List.range n).map (fun i => buf.getD i 0)

/-- Body of `Java_com_atlasgurus_rulestone_Rulestone_Match` once the native
`Match` result pointer has been dereferenced: build a host array of
`matches->len` ints, copy the buffer across, free the buffer, free the
header, release the input chars, return the (non-null) host array. -/
def matchBody (m : Matches) : Option (List Int) × List Event :=
  (some (copyRegion m.«matches» m.len),
   [.getStringUTFChars, .callNative, .newIntArray m.len,
    .setIntArrayRegion m.len, .free m.bufId, .free m.hdrId,
    .releaseStringUTFChars])

/-- Embedding of `Java_com_atlasgurus_rulestone_Rulestone_Match`.  The
argument is the native `Match` primitive's result.  The C code dereferences
it with no NULL check, so the embedding is undefined (`none`) on `none`. -/
def Java_com_atlasgurus_rulestone_Rulestone_Match
    («matches» : Option Matches) : Option (Option (List Int) × List Event) :=
  «matches».map matchBody

/-- Host-side `java.util.HashMap<String,String>` contents.  Keys and values
are `Option String` because JNI `NewStringUTF` can fail, in which case the
C code stores a NULL `jstring` (Java's `HashMap` accepts null keys and
values). -/
abbrev HostMap := List (Option String × Option String)

/-- `HashMap.put` semantics: replace the value of an existing key in
place, otherwise append the new entry. -/
def hashMapPut (hm : HostMap) (k v : Option String) : HostMap :=
  match hm with
  | [] => [(k, v)]
  | p :: rest => if p.1 = k then (k, v) :: rest else p :: hashMapPut rest k v

/-- `HashMap.get` semantics: the value of the first entry with the key. -/
def hashMapGet (hm : HostMap) (k : Option String) : Option (Option String) :=
  match hm with
  | [] => none
  | p :: rest => if p.1 = k then some p.2 else hashMapGet rest k

/-- The native key string of pair `i`: `metadata->metadata[i*2]`. -/
def keyAt (md : Metadata) (i : Nat) : NativeString :=
  md.metadata.getD (i * 2) ⟨0, ""⟩

/-- The native value string of pair `i`: `metadata->metadata[i*2+1]`. -/
def valAt (md : Metadata) (i : Nat) : NativeString :=
  md.metadata.getD (i * 2 + 1) ⟨0, ""⟩

/-- The `for` loop of `GetRuleMetadata`, run for pairs `0 … n-1`: convert
the key and the value of each pair with `NewStringUTF` (modelled by
`conv`), `put` them into the map, then free the two native strings.  The
result is the map contents and the events of the loop, in order. -/
def metaLoop (conv : String → Option String) (md : Metadata) :
    Nat → HostMap × List Event
  | 0 => ([], [])
  | n + 1 =>
    let r := metaLoop conv md n
    (hashMapPut r.1 (conv (keyAt md n).s) (conv (valAt md n).s),
     r.2 ++ [.newStr (keyAt md n).id, .newStr (valAt md n).id, .put,
             .free (keyAt md n).id, .free (valAt md n).id])

/-- The host-owned `com.atlasgurus.rulestone.RuleMetadata` object: a record
wrapping the map. -/
structure RuleMetadata where
  map : HostMap
  deriving DecidableEq, Repr

/-- Embedding of `Java_com_atlasgurus_rulestone_Rulestone_GetRuleMetadata`.
The first argument models JNI `NewStringUTF`; the second is the native
`GetRuleMetadata` primitive's result, `none` for the NULL pointer.  On NULL
the C code returns NULL at once (no allocation, no free); otherwise it
builds a `HashMap`, runs the conversion loop over all `size` pairs, frees
the flat array header, and returns a new `RuleMetadata` object. -/
def Java_com_atlasgurus_rulestone_Rulestone_GetRuleMetadata
    (conv : String → Option String) (metadata : Option Metadata) :
    Option RuleMetadata × List Event :=
  match metadata with
  | none => (none, [])
  | some md =>
    let r := metaLoop conv md md.size
    (some ⟨r.1⟩, [.newMap] ++ r.2 ++ [.free md.hdrId, .newObj])

/-- The identities of the native string allocations the adapter receives
from a non-null `Metadata` result, in pair order: key then value of pair
`0`, then of pair `1`, and so on. -/
def stringIds (md : Metadata) : List Nat :=
  (List.range md.size).flatMap (fun i => [(keyAt md i).id, (valAt md i).id])

/-- The per-pair event block of the metadata conversion loop: convert the
key, convert the value, put, free the key, free the value. -/
def pairBlock (md : Metadata) (i : Nat) : List Event :=
  [.newStr (keyAt md i).id, .newStr (valAt md i).id, .put,
   .free (keyAt md i).id, .free (valAt md i).id]

/-- Does the map contain an entry with key `k`? (`HashMap.containsKey`.) -/
def containsKey (hm : HostMap) (k : Option String) : Bool :=
  match hm with
  | [] => false
  | p :: rest => decide (p.1 = k) || containsKey rest k

/-- The value of the last pair among pairs `0 … n-1` whose converted key is
`k`, if any: the reference "last-pair-wins" reading of the flat array. -/
def lastPairVal (conv : String → Option String) (md : Metadata)
    (k : Option String) : Nat → Option (Option String)
  | 0 => none
  | n + 1 =>
    if conv (keyAt md n).s = k then some (conv (valAt md n).s)
    else lastPairVal conv md k n

/-- A concrete `Matches` value used to instantiate theorems. -/
def mEx : Matches := ⟨1, 2, 2, [7, 9]⟩

/-- A concrete `Metadata` value used to instantiate theorems: struct
allocation `20`, flat-array block `10`, two pairs. -/
def mdEx : Metadata :=
  ⟨20, 10, 2, [⟨11, "severity"⟩, ⟨12, "high"⟩, ⟨13, "color"⟩, ⟨14, "red"⟩]⟩

/-- The identities of all native-owned allocations the adapter receives
from a non-null `Metadata` result: the `Metadata` struct itself, the
`2*size` native strings, and the flat array block. -/
def metadataReceivedIds (md : Metadata) : List Nat :=
  md.structId :: (stringIds md ++ [md.hdrId])

theorem freedIds_append (s t : List Event) :
    freedIds (s ++ t) = freedIds s ++ freedIds t := by
  simp [freedIds]

theorem metaLoop_snd (conv : String → Option String) (md : Metadata) :
    ∀ n, (metaLoop conv md n).2 = (List.range n).flatMap (pairBlock md) := by
  intro n
  induction n with
  | zero => rfl
  | succ k ih =>
    simp only [metaLoop, List.range_succ, List.flatMap_append, ih, pairBlock]
    simp [pairBlock]

theorem freedIds_metaLoop (conv : String → Option String) (md : Metadata) :
    ∀ n, freedIds (metaLoop conv md n).2 =
      (List.range n).flatMap (fun i => [(keyAt md i).id, (valAt md i).id]) := by
  intro n
  induction n with
  | zero => rfl
  | succ k ih =>
    simp only [metaLoop]
    rw [freedIds_append, ih]
    simp [List.range_succ, freedIds, Event.freeId]

theorem freedIds_getRuleMetadata (conv : String → Option String)
    (md : Metadata) :
    freedIds (Java_com_atlasgurus_rulestone_Rulestone_GetRuleMetadata conv
        (some md)).2 = stringIds md ++ [md.hdrId] := by
  show freedIds ([Event.newMap] ++ (metaLoop conv md md.size).2 ++
      [Event.free md.hdrId, Event.newObj]) = _
  rw [freedIds_append, freedIds_append, freedIds_metaLoop]
  simp [freedIds, Event.freeId, stringIds]

theorem containsKey_hashMapPut (hm : HostMap) (k v k2 : Option String) :
    containsKey (hashMapPut hm k v) k2 =
      (containsKey hm k2 || decide (k2 = k)) := by
  induction hm with
  | nil => simp [hashMapPut, containsKey, eq_comm]
  | cons p rest ih =>
    by_cases h : p.1 = k
    · by_cases h2 : k = k2 <;> simp [hashMapPut, containsKey, h, h2, eq_comm]
    · simp [hashMapPut, containsKey, h, ih, Bool.or_assoc]

theorem length_hashMapPut (hm : HostMap) (k v : Option String) :
    (hashMapPut hm k v).length =
      if containsKey hm k then hm.length else hm.length + 1 := by
  induction hm with
  | nil => simp [hashMapPut, containsKey]
  | cons p rest ih =>
    by_cases h : p.1 = k
    · simp [hashMapPut, containsKey, h]
    · by_cases h2 : containsKey rest k <;>
        simp [hashMapPut, containsKey, h, h2, ih]

theorem mem_hashMapPut (hm : HostMap) (k v : Option String)
    (p : Option String × Option String) (h : p ∈ hashMapPut hm k v) :
    p = (k, v) ∨ p ∈ hm := by
  induction hm with
  | nil => simpa [hashMapPut] using h
  | cons q rest ih =>
    by_cases hq : q.1 = k
    · rw [hashMapPut, if_pos hq] at h
      rcases List.mem_cons.mp h with h2 | h2
      · exact Or.inl h2
      · exact Or.inr (List.mem_cons_of_mem q h2)
    · rw [hashMapPut, if_neg hq] at h
      rcases List.mem_cons.mp h with h2 | h2
      · exact Or.inr (h2 ▸ List.mem_cons_self q rest)
      · rcases ih h2 with h3 | h3
        · exact Or.inl h3
        · exact Or.inr (List.mem_cons_of_mem q h3)

theorem hashMapGet_hashMapPut (hm : HostMap) (k v k2 : Option String) :
    hashMapGet (hashMapPut hm k v) k2 =
      if k = k2 then some v else hashMapGet hm k2 := by
  induction hm with
  | nil => simp [hashMapPut, hashMapGet]
  | cons p rest ih =>
    by_cases h : p.1 = k
    · by_cases h2 : k = k2 <;> simp [hashMapPut, hashMapGet, h, h2]
    · by_cases h2 : p.1 = k2
      · have h3 : ¬ k = k2 := fun h4 => h (h4 ▸ h2)
        have h4 : ¬ k2 = k := fun h5 => h3 h5.symm
        simp [hashMapPut, hashMapGet, h, h2, h3, h4]
      · simp [hashMapPut, hashMapGet, h, h2, ih]

theorem hashMapGet_isSome_of_containsKey (hm : HostMap) (k : Option String)
    (h : containsKey hm k = true) : ∃ v, hashMapGet hm k = some v := by
  induction hm with
  | nil => simp [containsKey] at h
  | cons p rest ih =>
    by_cases h2 : p.1 = k
    · exact ⟨p.2, by simp [hashMapGet, h2]⟩
    · rw [containsKey] at h
      simp [h2] at h
      rcases ih h with ⟨v, hv⟩
      exact ⟨v, by simp [hashMapGet, h2, hv]⟩

theorem mem_of_hashMapGet (hm : HostMap) (k v : Option String)
    (h : hashMapGet hm k = some v) : (k, v) ∈ hm := by
  induction hm with
  | nil => simp [hashMapGet] at h
  | cons p rest ih =>
    by_cases h2 : p.1 = k
    · rw [hashMapGet, if_pos h2] at h
      have : p = (k, v) := by
        cases p
        simp at h2 h ⊢
        exact ⟨h2, h⟩
      exact this ▸ List.mem_cons_self p rest
    · rw [hashMapGet, if_neg h2] at h
      exact List.mem_cons_of_mem p (ih h)

theorem containsKey_metaLoop (conv : String → Option String) (md : Metadata)
    (k : Option String) : ∀ n,
    containsKey (metaLoop conv md n).1 k = true ↔
      ∃ i, i < n ∧ conv (keyAt md i).s = k := by
  intro n
  induction n with
  | zero =>
    simp [metaLoop, containsKey]
  | succ j ih =>
    simp only [metaLoop, containsKey_hashMapPut, Bool.or_eq_true,
      decide_eq_true_eq, ih]
    constructor
    · rintro (⟨i, hi, hk⟩ | hk)
      · exact ⟨i, Nat.lt_succ_of_lt hi, hk⟩
      · exact ⟨j, Nat.lt_succ_self j, hk.symm⟩
    · rintro ⟨i, hi, hk⟩
      rcases Nat.lt_succ_iff_lt_or_eq.mp hi with h2 | h2
      · exact Or.inl ⟨i, h2, hk⟩
      · exact Or.inr (h2 ▸ hk).symm

theorem metaLoop_length (conv : String → Option String) (md : Metadata) :
    ∀ n, (∀ i j, i < n → j < n →
        conv (keyAt md i).s = conv (keyAt md j).s → i = j) →
    (metaLoop conv md n).1.length = n := by
  intro n
  induction n with
  | zero => intro _; rfl
  | succ j ih =>
    intro hinj
    have hnotin : containsKey (metaLoop conv md j).1 (conv (keyAt md j).s) =
        false := by
      cases hcc : containsKey (metaLoop conv md j).1 (conv (keyAt md j).s) with
      | false => rfl
      | true =>
        rcases (containsKey_metaLoop conv md _ j).mp hcc with ⟨i, hi, hk⟩
        have := hinj i j (Nat.lt_succ_of_lt hi) (Nat.lt_succ_self j) hk
        omega
    have hlen := ih (fun i j2 hi hj2 hk =>
      hinj i j2 (Nat.lt_succ_of_lt hi) (Nat.lt_succ_of_lt hj2) hk)
    simp [metaLoop, length_hashMapPut, hnotin, hlen]

theorem mem_metaLoop (conv : String → Option String) (md : Metadata) :
    ∀ n p, p ∈ (metaLoop conv md n).1 →
      ∃ i, i < n ∧ p = (conv (keyAt md i).s, conv (valAt md i).s) := by
  intro n
  induction n with
  | zero => intro p hp; simp [metaLoop] at hp
  | succ j ih =>
    intro p hp
    rw [metaLoop] at hp
    rcases mem_hashMapPut _ _ _ _ hp with h | h
    · exact ⟨j, Nat.lt_succ_self j, h⟩
    · rcases ih p h with ⟨i, hi, he⟩
      exact ⟨i, Nat.lt_succ_of_lt hi, he⟩

theorem hashMapGet_metaLoop (conv : String → Option String) (md : Metadata)
    (k : Option String) : ∀ n,
    hashMapGet (metaLoop conv md n).1 k = lastPairVal conv md k n := by
  intro n
  induction n with
  | zero => rfl
  | succ j ih =>
    rw [metaLoop, lastPairVal]
    simp only [hashMapGet_hashMapPut, ih]

theorem lastPairVal_last (conv : String → Option String) (md : Metadata)
    (i : Nat) : ∀ n, i < n →
    (∀ j, i < j → j < n → conv (keyAt md j).s ≠ conv (keyAt md i).s) →
    lastPairVal conv md (conv (keyAt md i).s) n = some (conv (valAt md i).s) := by
  intro n
  induction n with
  | zero => intro h; omega
  | succ j ih =>
    intro hi hlast
    rcases Nat.lt_succ_iff_lt_or_eq.mp hi with h2 | h2
    · have hne : conv (keyAt md j).s ≠ conv (keyAt md i).s :=
        hlast j h2 (Nat.lt_succ_self j)
      rw [lastPairVal, if_neg hne]
      exact ih h2 (fun j2 hj2 hj3 => hlast j2 hj2 (Nat.lt_succ_of_lt hj3))
    · subst h2
      rw [lastPairVal, if_pos rfl]

theorem copyRegion_length (buf : List Int) (n : Nat) :
    (copyRegion buf n).length = n := by
  simp [copyRegion]

theorem copyRegion_getD (buf : List Int) (n i : Nat) (h : i < n) :
    (copyRegion buf n).getD i 0 = buf.getD i 0 := by
  have hlen : i < (copyRegion buf n).length := by
    rw [copyRegion_length]; exact h
  rw [List.getD_eq_getElem _ _ hlen]
  simp [copyRegion]

theorem copyRegion_self (buf : List Int) : copyRegion buf buf.length = buf := by
  refine List.ext_getElem (copyRegion_length buf buf.length) ?_
  intro i h1 h2
  have h3 := copyRegion_getD buf buf.length i h2
  rw [List.getD_eq_getElem _ _ h1, List.getD_eq_getElem _ _ h2] at h3
  exact h3

theorem flatMapPair_length (g g2 : Nat → Nat) : ∀ n,
    ((List.range n).flatMap (fun i => [g i, g2 i])).length = 2 * n := by
  intro n
  induction n with
  | zero => rfl
  | succ k ih =>
    rw [List.range_succ, List.flatMap_append]
    simp [ih]
    omega

theorem stringIds_length (md : Metadata) :
    (stringIds md).length = 2 * md.size :=
  flatMapPair_length (fun i => (keyAt md i).id) (fun i => (valAt md i).id)
    md.size

/-- C6: for every input string, `NewRuleEngine` returns exactly the integer
handle produced by the native create primitive, unchanged (including any
failure sentinel, with no interpretation and no retry: the native primitive
is invoked exactly once), and it releases the temporary UTF view of the
host string after acquiring it and calling the primitive, before
returning. -/
theorem newRuleEngine_passes_handle_through (create : String → Int)
    (jstr : String) :
    (Java_com_atlasgurus_rulestone_Rulestone_NewRuleEngine create jstr).1 =
      create jstr ∧
    (Java_com_atlasgurus_rulestone_Rulestone_NewRuleEngine create
        jstr).2.count Event.callNative = 1 ∧
    (Java_com_atlasgurus_rulestone_Rulestone_NewRuleEngine create
        jstr).2.count Event.releaseStringUTFChars = 1 ∧
    (Java_com_atlasgurus_rulestone_Rulestone_NewRuleEngine create
        jstr).2.takeWhile (fun e => e != Event.releaseStringUTFChars) =
      [Event.getStringUTFChars, Event.callNative] := by
  refine ⟨rfl, ?_, ?_, ?_⟩ <;> rfl

/-- C7: a match call whose native match-set has count zero returns a valid
empty host-owned array, never an absent/null result. -/
theorem match_zero_count_yields_empty_array (m : Matches) (h : m.len = 0) :
    ∃ res, Java_com_atlasgurus_rulestone_Rulestone_Match (some m) =
        some res ∧ res.1 = some [] ∧ res.1 ≠ none := by
  refine ⟨matchBody m, rfl, ?_, ?_⟩
  · simp [matchBody, h, copyRegion]
  · simp [matchBody]

/-- Witness for `match_zero_count_yields_empty_array` at a concrete
zero-count match-set. -/
theorem match_zero_count_yields_empty_array_witness :
    (⟨1, 2, 0, []⟩ : Matches).len = 0 ∧
    ∃ res, Java_com_atlasgurus_rulestone_Rulestone_Match
        (some (⟨1, 2, 0, []⟩ : Matches)) = some res ∧
      res.1 = some [] ∧ res.1 ≠ none :=
  ⟨rfl, match_zero_count_yields_empty_array ⟨1, 2, 0, []⟩ rfl⟩

/-- C3: when the native match-set is well formed (its buffer holds exactly
`len` identifiers), the match operation returns a host array that is
exactly the native buffer: same length, same identifier at every index, no
truncation, no duplication, order preserved. -/
theorem match_returns_exact_copy_of_match_set (m : Matches)
    (h : m.«matches».length = m.len) :
    ∃ res arr, Java_com_atlasgurus_rulestone_Rulestone_Match (some m) =
        some res ∧ res.1 = some arr ∧ arr = m.«matches» ∧
      arr.length = m.len ∧
      ∀ i, i < m.len → arr.getD i 0 = m.«matches».getD i 0 := by
  refine ⟨matchBody m, copyRegion m.«matches» m.len, rfl, rfl, ?_,
    copyRegion_length _ _, fun i hi => copyRegion_getD _ _ _ hi⟩
  rw [← h, copyRegion_self]

/-- Witness for `match_returns_exact_copy_of_match_set` at a concrete
match-set with two identifiers. -/
theorem match_returns_exact_copy_of_match_set_witness :
    mEx.«matches».length = mEx.len ∧
    ∃ res arr, Java_com_atlasgurus_rulestone_Rulestone_Match (some mEx) =
        some res ∧ res.1 = some arr ∧ arr = mEx.«matches» ∧
      arr.length = mEx.len ∧
      ∀ i, i < mEx.len → arr.getD i 0 = mEx.«matches».getD i 0 :=
  ⟨rfl, match_returns_exact_copy_of_match_set mEx rfl⟩

/-- C8: in every match call the native buffer and header are freed exactly
once each (given that they are distinct allocations), both frees appear in
the call's trace before it returns, and no free event precedes the
`SetIntArrayRegion` copy of the identifiers into the host array. -/
theorem match_frees_buffer_and_header_once_after_copy (m : Matches)
    (h : m.bufId ≠ m.hdrId) :
    ∃ res, Java_com_atlasgurus_rulestone_Rulestone_Match (some m) =
        some res ∧
      freedIds res.2 = [m.bufId, m.hdrId] ∧
      (freedIds res.2).count m.bufId = 1 ∧
      (freedIds res.2).count m.hdrId = 1 ∧
      Event.setIntArrayRegion m.len ∈
        res.2.takeWhile (fun e => !e.isFree) := by
  have hfr : freedIds (matchBody m).2 = [m.bufId, m.hdrId] := by
    simp [matchBody, freedIds, Event.freeId]
  have hnd : ([m.bufId, m.hdrId] : List Nat).Nodup := by simp [h]
  refine ⟨matchBody m, rfl, hfr, ?_, ?_, ?_⟩
  · rw [hfr]; exact List.count_eq_one_of_mem hnd (by simp)
  · rw [hfr]; exact List.count_eq_one_of_mem hnd (by simp)
  · simp [matchBody, List.takeWhile_cons, Event.isFree]

/-- Witness for `match_frees_buffer_and_header_once_after_copy` at a
concrete match-set. -/
theorem match_frees_buffer_and_header_once_after_copy_witness :
    mEx.bufId ≠ mEx.hdrId ∧
    ∃ res, Java_com_atlasgurus_rulestone_Rulestone_Match (some mEx) =
        some res ∧
      freedIds res.2 = [mEx.bufId, mEx.hdrId] ∧
      (freedIds res.2).count mEx.bufId = 1 ∧
      (freedIds res.2).count mEx.hdrId = 1 ∧
      Event.setIntArrayRegion mEx.len ∈
        res.2.takeWhile (fun e => !e.isFree) :=
  ⟨by decide, match_frees_buffer_and_header_once_after_copy mEx (by decide)⟩

/-- C10: the match entry point dereferences the native `Match` result with
no NULL check, so its embedding is defined exactly when that result is
non-null; the metadata entry point, by contrast, guards the native result,
is defined for every input, and returns a present host object exactly when
the native result is non-null. -/
theorem match_unguarded_dereference_metadata_guarded
    (om : Option Matches) (conv : String → Option String)
    (omd : Option Metadata) :
    ((Java_com_atlasgurus_rulestone_Rulestone_Match om).isSome ↔
      om.isSome) ∧
    ((Java_com_atlasgurus_rulestone_Rulestone_GetRuleMetadata conv
        omd).1.isSome ↔ omd.isSome) := by
  constructor
  · cases om <;> simp [Java_com_atlasgurus_rulestone_Rulestone_Match]
  · cases omd <;>
      simp [Java_com_atlasgurus_rulestone_Rulestone_GetRuleMetadata]

/-- C2: on a null native metadata result the adapter returns the absent
value immediately, with an empty event trace (no allocation, no free), and
the absent value is distinguishable from every present mapping, the empty
one included. -/
theorem getRuleMetadata_null_returns_absent_immediately
    (conv : String → Option String) :
    (Java_com_atlasgurus_rulestone_Rulestone_GetRuleMetadata conv
        none).1 = none ∧
    (Java_com_atlasgurus_rulestone_Rulestone_GetRuleMetadata conv
        none).2 = [] ∧
    ∀ hm : HostMap, (none : Option RuleMetadata) ≠ some ⟨hm⟩ :=
  ⟨rfl, rfl, fun _ h => Option.noConfusion h⟩

/-- Witness for `getRuleMetadata_null_returns_absent_immediately` at the
identity conversion, with the absent/empty distinction instantiated at the
empty mapping. -/
theorem getRuleMetadata_null_returns_absent_immediately_witness :
    (Java_com_atlasgurus_rulestone_Rulestone_GetRuleMetadata Option.some
        none).1 = none ∧
    (Java_com_atlasgurus_rulestone_Rulestone_GetRuleMetadata Option.some
        none).2 = [] ∧
    (none : Option RuleMetadata) ≠ some ⟨[]⟩ :=
  ⟨(getRuleMetadata_null_returns_absent_immediately Option.some).1,
   (getRuleMetadata_null_returns_absent_immediately Option.some).2.1,
   (getRuleMetadata_null_returns_absent_immediately Option.some).2.2 []⟩

/-- C4: a non-null native metadata result of `size` pairs yields a mapping
built by putting the pairs in the native array's order (pair `i` takes its
key from flat index `2*i` and its value from `2*i+1`, which is what
`keyAt`/`valAt` read); its entry count equals `size` when the converted
keys are pairwise distinct, and on duplicate keys the later pair's value
overwrites the earlier one (last-pair-wins). -/
theorem getRuleMetadata_insertion_order_last_pair_wins
    (conv : String → Option String) (md : Metadata) :
    ∃ rm : RuleMetadata,
      (Java_com_atlasgurus_rulestone_Rulestone_GetRuleMetadata conv
          (some md)).1 = some rm ∧
      rm.map = (metaLoop conv md md.size).1 ∧
      ((∀ i, i < md.size → ∀ j, j < md.size →
          conv (keyAt md i).s = conv (keyAt md j).s → i = j) →
        rm.map.length = md.size) ∧
      (∀ i, i < md.size →
        (∀ j, j < md.size → i < j →
          conv (keyAt md j).s ≠ conv (keyAt md i).s) →
        hashMapGet rm.map (conv (keyAt md i).s) =
          some (conv (valAt md i).s)) := by
  refine ⟨⟨(metaLoop conv md md.size).1⟩, rfl, rfl, ?_, ?_⟩
  · intro hinj
    exact metaLoop_length conv md md.size (fun i j hi hj => hinj i hi j hj)
  · intro i hi hlast
    rw [hashMapGet_metaLoop]
    exact lastPairVal_last conv md i md.size hi
      (fun j hij hj => hlast j hj hij)

/-- Witness for `getRuleMetadata_insertion_order_last_pair_wins` at the
identity conversion and a concrete two-pair metadata result. -/
theorem getRuleMetadata_insertion_order_last_pair_wins_witness :
    ∃ rm : RuleMetadata,
      (Java_com_atlasgurus_rulestone_Rulestone_GetRuleMetadata Option.some
          (some mdEx)).1 = some rm ∧
      rm.map = (metaLoop Option.some mdEx mdEx.size).1 ∧
      ((∀ i, i < mdEx.size → ∀ j, j < mdEx.size →
          Option.some (keyAt mdEx i).s = Option.some (keyAt mdEx j).s →
          i = j) →
        rm.map.length = mdEx.size) ∧
      (∀ i, i < mdEx.size →
        (∀ j, j < mdEx.size → i < j →
          Option.some (keyAt mdEx j).s ≠ Option.some (keyAt mdEx i).s) →
        hashMapGet rm.map (Option.some (keyAt mdEx i).s) =
          some (Option.some (valAt mdEx i).s)) :=
  getRuleMetadata_insertion_order_last_pair_wins Option.some mdEx

/-- C5: a non-null metadata call frees exactly the `2*size` native string
allocations (one key and one value per pair) plus the array header; when
all these allocations are distinct, each is freed exactly once, none
skipped; and the trace of frees does not depend on the host-side
conversion function, so the frees happen even when a conversion step
fails. -/
theorem getRuleMetadata_frees_all_string_pairs
    (conv conv2 : String → Option String) (md : Metadata)
    (h : (stringIds md ++ [md.hdrId]).Nodup) :
    (Java_com_atlasgurus_rulestone_Rulestone_GetRuleMetadata conv
        (some md)).2 =
      (Java_com_atlasgurus_rulestone_Rulestone_GetRuleMetadata conv2
        (some md)).2 ∧
    freedIds (Java_com_atlasgurus_rulestone_Rulestone_GetRuleMetadata conv
        (some md)).2 = stringIds md ++ [md.hdrId] ∧
    ((freedIds (Java_com_atlasgurus_rulestone_Rulestone_GetRuleMetadata
        conv (some md)).2).filter
          (fun id => decide (id ∈ stringIds md))).length = 2 * md.size ∧
    ∀ id, id ∈ stringIds md →
      (freedIds (Java_com_atlasgurus_rulestone_Rulestone_GetRuleMetadata
        conv (some md)).2).count id = 1 := by
  have htr : ∀ c : String → Option String,
      (Java_com_atlasgurus_rulestone_Rulestone_GetRuleMetadata c
          (some md)).2 =
        [Event.newMap] ++ (List.range md.size).flatMap (pairBlock md) ++
          [Event.free md.hdrId, Event.newObj] := by
    intro c
    show [Event.newMap] ++ (metaLoop c md md.size).2 ++
        [Event.free md.hdrId, Event.newObj] = _
    rw [metaLoop_snd]
  have hdisj := (List.nodup_append.mp h).2.2
  have hnm : md.hdrId ∉ stringIds md := fun hmem => hdisj hmem (by simp)
  refine ⟨(htr conv).trans (htr conv2).symm,
    freedIds_getRuleMetadata conv md, ?_, ?_⟩
  · rw [freedIds_getRuleMetadata, List.filter_append]
    have h1 : (stringIds md).filter
        (fun id => decide (id ∈ stringIds md)) = stringIds md :=
      List.filter_eq_self.mpr (fun a ha => by simpa using ha)
    have h2 : ([md.hdrId] : List Nat).filter
        (fun id => decide (id ∈ stringIds md)) = [] := by
      simp [hnm]
    rw [h1, h2, List.append_nil]
    exact stringIds_length md
  · intro id hid
    rw [freedIds_getRuleMetadata]
    exact List.count_eq_one_of_mem h (List.mem_append_left _ hid)

/-- Witness for `getRuleMetadata_frees_all_string_pairs` at a concrete
two-pair metadata result, with the second conversion function failing on
every string. -/
theorem getRuleMetadata_frees_all_string_pairs_witness :
    (stringIds mdEx ++ [mdEx.hdrId]).Nodup ∧
    ((Java_com_atlasgurus_rulestone_Rulestone_GetRuleMetadata Option.some
        (some mdEx)).2 =
      (Java_com_atlasgurus_rulestone_Rulestone_GetRuleMetadata
        (fun _ => none) (some mdEx)).2 ∧
    freedIds (Java_com_atlasgurus_rulestone_Rulestone_GetRuleMetadata
        Option.some (some mdEx)).2 = stringIds mdEx ++ [mdEx.hdrId] ∧
    ((freedIds (Java_com_atlasgurus_rulestone_Rulestone_GetRuleMetadata
        Option.some (some mdEx)).2).filter
          (fun id => decide (id ∈ stringIds mdEx))).length =
        2 * mdEx.size ∧
    ∀ id, id ∈ stringIds mdEx →
      (freedIds (Java_com_atlasgurus_rulestone_Rulestone_GetRuleMetadata
        Option.some (some mdEx)).2).count id = 1) :=
  ⟨by decide, getRuleMetadata_frees_all_string_pairs Option.some
    (fun _ => none) mdEx (by decide)⟩

/-- C9: when the conversion primitive is lossless, every key and value
stored in the returned mapping is character-for-character one of the
native strings of some pair, and every native key is present in the
mapping with a value that is character-for-character a native value string
of a pair carrying the same key. -/
theorem getRuleMetadata_strings_round_trip
    (conv : String → Option String) (md : Metadata)
    (hconv : ∀ s, conv s = some s) :
    ∃ rm : RuleMetadata,
      (Java_com_atlasgurus_rulestone_Rulestone_GetRuleMetadata conv
          (some md)).1 = some rm ∧
      (∀ p, p ∈ rm.map → ∃ i, i < md.size ∧
        p.1 = some (keyAt md i).s ∧ p.2 = some (valAt md i).s) ∧
      (∀ i, i < md.size → ∃ j, j < md.size ∧
        (keyAt md j).s = (keyAt md i).s ∧
        hashMapGet rm.map (some (keyAt md i).s) =
          some (some (valAt md j).s)) := by
  refine ⟨⟨(metaLoop conv md md.size).1⟩, rfl, ?_, ?_⟩
  · intro p hp
    rcases mem_metaLoop conv md md.size p hp with ⟨i, hi, he⟩
    exact ⟨i, hi, by rw [he]; simp [hconv], by rw [he]; simp [hconv]⟩
  · intro i hi
    have hck : containsKey (metaLoop conv md md.size).1
        (conv (keyAt md i).s) = true :=
      (containsKey_metaLoop conv md _ md.size).mpr ⟨i, hi, rfl⟩
    rcases hashMapGet_isSome_of_containsKey _ _ hck with ⟨v, hv⟩
    have hmem := mem_of_hashMapGet _ _ _ hv
    rcases mem_metaLoop conv md md.size _ hmem with ⟨j, hj, hej⟩
    have h1 : conv (keyAt md i).s = conv (keyAt md j).s :=
      congrArg Prod.fst hej
    have h2 : v = conv (valAt md j).s := congrArg Prod.snd hej
    refine ⟨j, hj, ?_, ?_⟩
    · rw [hconv, hconv] at h1
      exact (Option.some_inj.mp h1).symm
    · rw [← hconv (keyAt md i).s, hv, h2, hconv]

/-- Witness for `getRuleMetadata_strings_round_trip` at the identity
conversion and a concrete two-pair metadata result. -/
theorem getRuleMetadata_strings_round_trip_witness :
    (∀ s : String, Option.some s = some s) ∧
    ∃ rm : RuleMetadata,
      (Java_com_atlasgurus_rulestone_Rulestone_GetRuleMetadata Option.some
          (some mdEx)).1 = some rm ∧
      (∀ p, p ∈ rm.map → ∃ i, i < mdEx.size ∧
        p.1 = some (keyAt mdEx i).s ∧ p.2 = some (valAt mdEx i).s) ∧
      (∀ i, i < mdEx.size → ∃ j, j < mdEx.size ∧
        (keyAt mdEx j).s = (keyAt mdEx i).s ∧
        hashMapGet rm.map (some (keyAt mdEx i).s) =
          some (some (valAt mdEx j).s)) :=
  ⟨fun _ => rfl,
   getRuleMetadata_strings_round_trip Option.some mdEx (fun _ => rfl)⟩

/-- C1 (the code refutes it — a leak in the metadata path): the claim says
every native-owned allocation received from the native engine is freed by
the adapter exactly once, so that no native allocation outlives the call
that produced it.  The match path does this (it frees both the buffer and
the `Matches` struct), but `GetRuleMetadata` contains no `free(metadata)`:
at a concrete non-null metadata result, the `Metadata` struct allocation
is among the allocations received, yet the call frees only the `2*size`
native strings and the flat array block — no `free` event carries the
struct allocation's identity, so that allocation outlives the call. -/
theorem getRuleMetadata_never_frees_metadata_struct :
    mdEx.structId ∈ metadataReceivedIds mdEx ∧
    freedIds (Java_com_atlasgurus_rulestone_Rulestone_GetRuleMetadata
        Option.some (some mdEx)).2 = stringIds mdEx ++ [mdEx.hdrId] ∧
    mdEx.structId ∉ freedIds
      (Java_com_atlasgurus_rulestone_Rulestone_GetRuleMetadata
        Option.some (some mdEx)).2 ∧
    (Java_com_atlasgurus_rulestone_Rulestone_GetRuleMetadata Option.some
        (some mdEx)).2.count (Event.free mdEx.structId) = 0 ∧
    mEx.hdrId ∈ freedIds (matchBody mEx).2 := by
  decide
